import Mathlib

/-!
Verification of the Institutional Flow Analysis Engine of GetDailyStock
(src/stock_workflow.py), against its natural-language specification.

Shallow embedding conventions:
* Python strings are modelled as List Char; str.strip, str.replace with the
  concrete patterns used by the source, str.isdigit and str.zfill are given
  executable models below.
* Security codes are List Char or String, dates are Nat (the source uses
  ISO YYYY-MM-DD strings whose lexicographic order is chronological).
* Integer lot counts are Int; int(x) truncation of a quotient is Int.div
  (truncation toward zero), matching Python int() applied to a float ratio
  of integers.
* numpy float statistics (np.mean, np.std with ddof=0) are idealised as
  exact rational arithmetic; the standard deviation and the z-score are
  represented by their squares (var = std^2, zSq = z^2) so that everything
  stays in Rat: std = 0 iff var = 0, z = 0 iff zSq = 0, and for a positive
  sigma threshold z >= sigma iff (latest - mean)^2 >= sigma^2 * var.
* Python dicts are insertion-ordered association lists; Python sets are
  Finset.
-/

namespace GetDailyStock

/-! ### Python string primitives -/

/-- ASCII whitespace, as stripped by str.strip. -/
def pyIsSpace (c : Char) : Bool :=
  c.toNat = 32 || c.toNat = 9 || c.toNat = 10 || c.toNat = 11 || c.toNat = 12 || c.toNat = 13

/-- str.isdigit on one character (ASCII digits). -/
def pyIsDigit (c : Char) : Bool :=
  decide (48 ≤ c.toNat) && decide (c.toNat ≤ 57)

/-- str.lstrip (whitespace). -/
def lstrip (s : List Char) : List Char := s.dropWhile pyIsSpace

/-- str.rstrip (whitespace). -/
def rstrip (s : List Char) : List Char := (s.reverse.dropWhile pyIsSpace).reverse

/-- str.strip (whitespace). -/
def pyStrip (s : List Char) : List Char := rstrip (lstrip s)

/-- The double-quote character. -/
def quoteChar : Char := Char.ofNat 34

/-- The apostrophe character. -/
def apostChar : Char := Char.ofNat 39

/-- The equals-sign character. -/
def eqChar : Char := Char.ofNat 61

/-- str.replace⟨single char pattern, empty replacement⟩: removes every
occurrence of the character. -/
def removeAll (q : Char) : List Char → List Char
  | [] => []
  | c :: cs => if c = q then removeAll q cs else c :: removeAll q cs

/-- str.replace⟨two-char pattern, empty replacement⟩: removes the
non-overlapping occurrences of the pattern a,b scanning left to right. -/
def removePairs (a b : Char) : List Char → List Char
  | [] => []
  | [c] => [c]
  | c :: d :: rest =>
    if c = a ∧ d = b then removePairs a b rest
    else c :: removePairs a b (d :: rest)

/-- str.zfill 4 on a digit string: left-pad with zeros to width 4. -/
def zfill4 (s : List Char) : List Char :=
  List.replicate (4 - s.length) (Char.ofNat 48) ++ s

/-! ### normalize_stock_code  (stock_workflow.py lines 808-822)

Python:
    if pd.isna(code) or code == '': return ''
    code_str = str(code).strip()
    code_str = code_str.replace⟨=&quot-pair⟩.replace⟨&quot⟩.replace⟨apostrophe⟩
    if code_str.isdigit() and len(code_str) < 4: return code_str.zfill(4)
    return code_str
-/

/-- The code_str pipeline: strip, then remove the three patterns in the
source's order (equals-quote pairs, quotes, apostrophes). -/
def cleaned (s : List Char) : List Char :=
  removeAll apostChar (removeAll quoteChar
    (removePairs eqChar quoteChar (pyStrip s)))

def normalize_stock_code (s : List Char) : List Char :=
  if s = [] then []
  else if (cleaned s) ≠ [] ∧ (cleaned s).all pyIsDigit ∧ (cleaned s).length < 4
  then zfill4 (cleaned s)
  else cleaned s

/-! ### shares_to_lots  (stock_workflow.py lines 826-839)

Python: int(float(value) / 1000) for numeric input (comma-stripping, NaN and
parse failures all return 0 and are outside the numeric domain modelled
here).  int() truncates toward zero, which is Int.div. -/

def shares_to_lots (v : ℤ) : ℤ := Int.tdiv v 1000

/-! ### Stable sorting, pandas nlargest / nsmallest

pandas DataFrame.nlargest(n, col) (keep=first, the default used by the
source) returns the n rows with the largest col values, sorted descending,
with ties resolved in favour of earlier rows; equivalently, a stable
descending sort followed by take n.  nsmallest is the ascending analogue.
Python sorted(key, reverse=True), used for dates, is the same stable
descending sort. -/

def insDescBy {α β : Type} [LinearOrder β] (key : α → β) (x : α) :
    List α → List α
  | [] => [x]
  | y :: ys => if key y ≤ key x then x :: y :: ys else y :: insDescBy key x ys

def sortDescBy {α β : Type} [LinearOrder β] (key : α → β) : List α → List α
  | [] => []
  | x :: xs => insDescBy key x (sortDescBy key xs)

def insAscBy {α β : Type} [LinearOrder β] (key : α → β) (x : α) :
    List α → List α
  | [] => [x]
  | y :: ys => if key x ≤ key y then x :: y :: ys else y :: insAscBy key x ys

def sortAscBy {α β : Type} [LinearOrder β] (key : α → β) : List α → List α
  | [] => []
  | x :: xs => insAscBy key x (sortAscBy key xs)

/-! ### Daily Rank Extractor  (stock_workflow.py lines 1161-1202, 1516-1517)

A record of a daily snapshot is (security code, net volume in lots).
Python: df[df[lots] > 0].nlargest(n, lots) for the buy side and
df[df[lots] < 0].nsmallest(n, lots) for the sell side. -/

abbrev SRec := String × ℤ

def buy_top (n : ℕ) (df : List SRec) : List SRec :=
  (sortDescBy Prod.snd (df.filter fun r => decide (0 < r.2))).take n

def sell_top (n : ℕ) (df : List SRec) : List SRec :=
  (sortAscBy Prod.snd (df.filter fun r => decide (r.2 < 0))).take n

/-! ### Association lists: Python dicts -/

def lookupA {α β : Type} [DecidableEq α] : List (α × β) → α → Option β
  | [], _ => none
  | (k, v) :: rest, a => if k = a then some v else lookupA rest a

/-- Python dict assignment d[k] = v: overwrite in place, append if new. -/
def setA {α β : Type} [DecidableEq α] : List (α × β) → α → β → List (α × β)
  | [], a, b => [(a, b)]
  | (k, v) :: rest, a, b =>
    if k = a then (k, b) :: rest else (k, v) :: setA rest a b

/-! ### History Accumulator  (stock_workflow.py lines 1141-1152)

Per processed day-file, for every (allowed, normalized) record the source
does
    daily_all_stocks[file_date][stock_code] = buy_sell_value
(into a dict freshly created for the date) and
    all_historical_data[stock_code].append((file_date, buy_sell_value))
(a plain list append, creating the per-security series). -/

structure AccState where
  dailyAll : List (ℕ × List (String × ℤ))
  hist : List (String × List (ℕ × ℤ))
deriving DecidableEq, Repr

/-- all_historical_data[code].append((date, value)): create the key with an
empty list if absent, then append. -/
def appendHist (h : List (String × List (ℕ × ℤ))) (c : String) (d : ℕ)
    (v : ℤ) : List (String × List (ℕ × ℤ)) :=
  match h with
  | [] => [(c, [(d, v)])]
  | (k, l) :: rest =>
    if k = c then (k, l ++ [(d, v)]) :: rest else (k, l) :: appendHist rest c d v

/-- Ingest of one day-file: records are the already-normalized, allow-listed
(code, lots) rows of the file, date is the file date. -/
def ingest_snapshot (st : AccState) (d : ℕ) (records : List (String × ℤ)) :
    AccState :=
  { dailyAll := setA st.dailyAll d
      (records.foldl (fun m r => setA m r.1 r.2) []),
    hist := records.foldl (fun h r => appendHist h r.1 d r.2) st.hist }

/-! ### Statistics Engine  (stock_workflow.py lines 1434-1470)

Per security, on its (date, value) series:
    if len >= 30:
        sorted desc by date; latest = sorted[0][1] (0 if empty);
        historical = values of sorted[1:61]
        if len(historical) >= 30:
            mean = np.mean(historical); std = np.std(historical)  (ddof=0)
            z = abs((latest - mean)/std) if std > 0 else 0
            anomaly = z >= sigma_threshold
std and the z-score are represented by their squares var and zSq (see the
header); anomaly is encoded equivalently: z >= sigma iff sigma <= 0 or
(0 < var and sigma^2 * var <= (latest - mean)^2). -/

def listMeanQ (l : List ℤ) : ℚ :=
  (l.map (Int.cast : ℤ → ℚ)).sum / (l.length : ℚ)

def popVarQ (l : List ℤ) : ℚ :=
  ((l.map (Int.cast : ℤ → ℚ)).map fun x => (x - listMeanQ l) ^ 2).sum
    / (l.length : ℚ)

structure StockStats where
  mean : ℚ
  var : ℚ
  latest : ℤ
  zSq : ℚ
  anomaly : Bool
deriving DecidableEq, Repr

def calculate_stock_statistics (dateValues : List (ℕ × ℤ)) (sigma : ℚ) :
    Option StockStats :=
  if 30 ≤ dateValues.length then
    let sorted := sortDescBy Prod.fst dateValues
    let latest := (sorted.headD (0, 0)).2
    let hist := ((sorted.drop 1).take 60).map Prod.snd
    if 30 ≤ hist.length then
      let m := listMeanQ hist
      let v := popVarQ hist
      some { mean := m, var := v, latest := latest,
             zSq := if 0 < v then ((latest : ℚ) - m) ^ 2 / v else 0,
             anomaly := decide (sigma ≤ 0) ||
               (decide (0 < v) && decide (sigma ^ 2 * v ≤ ((latest : ℚ) - m) ^ 2)) }
    else none
  else none

/-! ### Observable Classifier  (stock_workflow.py lines 1474-1620)

Inputs are the per-day top-20 buy/sell code sets (daily_buy_stocks,
daily_sell_stocks), the per-day all-codes lot map (daily_all_stocks), the
anomaly statistics, and the latest day-file's (already normalized and
allow-listed) records, from which the top-N buy/sell code sets are derived
exactly as in the source. -/

def sorted_dates (dailyBuy : List (ℕ × Finset String)) : List ℕ :=
  sortDescBy id (dailyBuy.map Prod.fst)

/-- previous_dates[:4] where previous_dates = sorted_dates[1:]. -/
def prev_dates4 (dailyBuy : List (ℕ × Finset String)) : List ℕ :=
  ((sorted_dates dailyBuy).drop 1).take 4

/-- Union of the recorded top-20 sets over the given dates (dates missing
from the map contribute nothing). -/
def union_top20 (daily : List (ℕ × Finset String)) (ds : List ℕ) :
    Finset String :=
  ds.foldl (fun acc d => acc ∪ (lookupA daily d).getD ∅) ∅

/-- Number of dates among ds on which the code has a recorded positive
value in daily_all_stocks. -/
def pos_days (dailyAll : List (ℕ × List (String × ℤ))) (ds : List ℕ)
    (c : String) : ℕ :=
  (ds.filter fun d =>
    match lookupA dailyAll d with
    | some m => match lookupA m c with
      | some v => decide (0 < v)
      | none => false
    | none => false).length

/-- Number of dates among ds on which the code has a recorded negative
value in daily_all_stocks. -/
def neg_days (dailyAll : List (ℕ × List (String × ℤ))) (ds : List ℕ)
    (c : String) : ℕ :=
  (ds.filter fun d =>
    match lookupA dailyAll d with
    | some m => match lookupA m c with
      | some v => decide (v < 0)
      | none => false
    | none => false).length

/-- stock_code in stock_statistics and stock_statistics[stock_code][anomaly]. -/
def anom_flag (stats : List (String × StockStats)) (c : String) : Bool :=
  ((lookupA stats c).map StockStats.anomaly).getD false

structure ObsResult where
  newBuy : Finset String
  newSell : Finset String
  obsBuy : Finset String
  obsSell : Finset String
  latestBuyN : Finset String
  latestSellN : Finset String
deriving DecidableEq

def analyze_new_entries_and_observables (latestRecords : List SRec)
    (dailyBuy dailySell : List (ℕ × Finset String))
    (dailyAll : List (ℕ × List (String × ℤ)))
    (stats : List (String × StockStats))
    (topBuyCount topSellCount : ℕ) : ObsResult :=
  if 2 ≤ (sorted_dates dailyBuy).length then
    let latestDate := (sorted_dates dailyBuy).headD 0
    let prev := prev_dates4 dailyBuy
    let latestBuyN := ((buy_top topBuyCount latestRecords).map Prod.fst).toFinset
    let latestSellN := ((sell_top topSellCount latestRecords).map Prod.fst).toFinset
    let newBuy := (lookupA dailyBuy latestDate).getD ∅ \ union_top20 dailyBuy prev
    let newSell := (lookupA dailySell latestDate).getD ∅ \ union_top20 dailySell prev
    let obsBuy := latestBuyN.filter fun c =>
      anom_flag stats c = true ∨ 3 ≤ pos_days dailyAll prev c
    let obsSell := latestSellN.filter fun c =>
      anom_flag stats c = true ∨ 3 ≤ neg_days dailyAll prev c
    ⟨newBuy, newSell, obsBuy, obsSell, latestBuyN, latestSellN⟩
  else ⟨∅, ∅, ∅, ∅, ∅, ∅⟩

/-! ### Aggregate Reducer  (stock_workflow.py lines 1792-1975)

aggregate_analysis(buy_top20_tracker, sell_top20_tracker, stock_sector_map,
aggregate_threshold=10000, show_top_n=None).  The sector map only feeds the
display-only sector / warning annotation columns appended to the selected
rows and is omitted here.  Ordering notes: pandas groupby sorts the group
keys, while this model keeps first-occurrence order (the key SET and each
group's sum and count are identical, and both leaderboards are re-sorted by
the summed volume before selection anyway); Python set iteration order for
the cross-listing detail rows is unspecified, so the detail rows are built
from the code-sorted cross-listing set before the final net-sum descending
sort performed by the source. -/

structure TrackerEntry where
  code : String
  name : String
  date : ℕ
  vol : ℤ
deriving DecidableEq, Repr

structure SummaryRow where
  code : String
  name : String
  total : ℤ
  count : ℕ
deriving DecidableEq, Repr

/-- groupby([code, name]).agg(sum of vol, count of date): one row per
distinct (code, name) pair with the group's summed volume and size. -/
def summarize (all : List TrackerEntry) : List SummaryRow :=
  ((all.map fun e => (e.code, e.name)).dedup).map fun k =>
    let grp := all.filter fun e => e.code = k.1 ∧ e.name = k.2
    ⟨k.1, k.2, (grp.map TrackerEntry.vol).sum, grp.length⟩

inductive DayDirection where
  | buy : DayDirection
  | sell : DayDirection
  | neutral : DayDirection
deriving DecidableEq, Repr

structure CrossRow where
  code : String
  name : String
  buyDates : List ℕ
  sellDates : List ℕ
  buySum : ℤ
  sellSum : ℤ
  netSum : ℤ
  dateStatus : List (DayDirection × ℕ)
deriving DecidableEq, Repr

structure AggResult where
  buyStocks : Option (List SummaryRow)
  sellStocks : Option (List SummaryRow)
  bothSet : Finset String
  bothDetail : Option (List CrossRow)
deriving DecidableEq

/-- The cross-listing detail row for one code (body of the
for stock_code in both_stocks_set loop). -/
def crossRowFor (allT buyT sellT : List TrackerEntry)
    (availableDates : List ℕ) (c : String) : CrossRow :=
  let mine := allT.filter fun e => e.code = c
  let buyDates := (buyT.filter fun e => e.code = c).map TrackerEntry.date
  let sellDates := (sellT.filter fun e => e.code = c).map TrackerEntry.date
  { code := c,
    name := ((mine.headD ⟨c, c, 0, 0⟩).name),
    buyDates := sortAscBy id buyDates,
    sellDates := sortAscBy id sellDates,
    buySum := ((mine.filter fun e => 0 < e.vol).map TrackerEntry.vol).sum,
    sellSum := ((mine.filter fun e => e.vol < 0).map TrackerEntry.vol).sum,
    netSum := (mine.map TrackerEntry.vol).sum,
    dateStatus := (availableDates.take 5).map fun d =>
      if d ∈ buyDates then (DayDirection.buy, d)
      else if d ∈ sellDates then (DayDirection.sell, d)
      else (DayDirection.neutral, d) }

def aggregate_analysis (buyT sellT : List TrackerEntry)
    (aggregateThreshold : ℤ) (showTopN : Option ℕ) : AggResult :=
  if buyT = [] ∨ sellT = [] then ⟨none, none, ∅, none⟩
  else
    let allT := buyT ++ sellT
    let summary := summarize allT
    let buySummary := summary.filter fun r => decide (0 < r.total)
    let sellSummary := summary.filter fun r => decide (r.total < 0)
    let bothSet := (buyT.map TrackerEntry.code).toFinset ∩
      (sellT.map TrackerEntry.code).toFinset
    let buyStocks := match showTopN with
      | some n => (sortDescBy SummaryRow.total buySummary).take n
      | none => sortDescBy SummaryRow.total
          (buySummary.filter fun r => decide (aggregateThreshold ≤ r.total))
    let sellStocks := match showTopN with
      | some n => (sortAscBy SummaryRow.total sellSummary).take n
      | none => sortAscBy SummaryRow.total
          (sellSummary.filter fun r => decide (r.total ≤ -aggregateThreshold))
    let detail :=
      if bothSet = ∅ then none
      else
        let availableDates := sortDescBy id ((allT.map TrackerEntry.date).dedup)
        some (sortDescBy CrossRow.netSum
          ((bothSet.sort (· ≤ ·)).map (crossRowFor allT buyT sellT availableDates)))
    ⟨some buyStocks, some sellStocks, bothSet, detail⟩

/-! ### Lemmas about the stable sorts -/

lemma mem_insDescBy {α β : Type} [LinearOrder β] (key : α → β) (x y : α) :
    ∀ l : List α, y ∈ insDescBy key x l ↔ y = x ∨ y ∈ l
  | [] => by simp [insDescBy]
  | z :: zs => by
    simp only [insDescBy]
    split
    · simp [List.mem_cons]
    · simp only [List.mem_cons, mem_insDescBy key x y zs]
      tauto

lemma mem_sortDescBy {α β : Type} [LinearOrder β] (key : α → β) (y : α) :
    ∀ l : List α, y ∈ sortDescBy key l ↔ y ∈ l
  | [] => by simp [sortDescBy]
  | z :: zs => by
    simp only [sortDescBy, mem_insDescBy, List.mem_cons, mem_sortDescBy key y zs]

lemma pairwise_insDescBy {α β : Type} [LinearOrder β] (key : α → β) (x : α) :
    ∀ {l : List α}, l.Pairwise (fun a b => key b ≤ key a) →
      (insDescBy key x l).Pairwise (fun a b => key b ≤ key a)
  | [], _ => by simp [insDescBy]
  | z :: zs, h => by
    simp only [insDescBy]
    split
    · refine List.Pairwise.cons (fun w hw => ?_) h
      rcases List.mem_cons.mp hw with rfl | hw
      · assumption
      · exact le_trans (List.rel_of_pairwise_cons h hw) (by assumption)
    · refine List.Pairwise.cons (fun w hw => ?_) (pairwise_insDescBy key x h.of_cons)
      rcases (mem_insDescBy key x w zs).mp hw with rfl | hw
      · exact le_of_lt (lt_of_not_le (by assumption))
      · exact List.rel_of_pairwise_cons h hw

lemma pairwise_sortDescBy {α β : Type} [LinearOrder β] (key : α → β) :
    ∀ l : List α, (sortDescBy key l).Pairwise (fun a b => key b ≤ key a)
  | [] => by simp [sortDescBy]
  | z :: zs => pairwise_insDescBy key z (pairwise_sortDescBy key zs)

lemma length_insDescBy {α β : Type} [LinearOrder β] (key : α → β) (x : α) :
    ∀ l : List α, (insDescBy key x l).length = l.length + 1
  | [] => rfl
  | z :: zs => by
    simp only [insDescBy]
    split
    · rfl
    · simp [length_insDescBy key x zs]

lemma length_sortDescBy {α β : Type} [LinearOrder β] (key : α → β) :
    ∀ l : List α, (sortDescBy key l).length = l.length
  | [] => rfl
  | z :: zs => by
    simp [sortDescBy, length_insDescBy, length_sortDescBy key zs]

lemma mem_insAscBy {α β : Type} [LinearOrder β] (key : α → β) (x y : α) :
    ∀ l : List α, y ∈ insAscBy key x l ↔ y = x ∨ y ∈ l
  | [] => by simp [insAscBy]
  | z :: zs => by
    simp only [insAscBy]
    split
    · simp [List.mem_cons]
    · simp only [List.mem_cons, mem_insAscBy key x y zs]
      tauto

lemma mem_sortAscBy {α β : Type} [LinearOrder β] (key : α → β) (y : α) :
    ∀ l : List α, y ∈ sortAscBy key l ↔ y ∈ l
  | [] => by simp [sortAscBy]
  | z :: zs => by
    simp only [sortAscBy, mem_insAscBy, List.mem_cons, mem_sortAscBy key y zs]

lemma pairwise_insAscBy {α β : Type} [LinearOrder β] (key : α → β) (x : α) :
    ∀ {l : List α}, l.Pairwise (fun a b => key a ≤ key b) →
      (insAscBy key x l).Pairwise (fun a b => key a ≤ key b)
  | [], _ => by simp [insAscBy]
  | z :: zs, h => by
    simp only [insAscBy]
    split
    · refine List.Pairwise.cons (fun w hw => ?_) h
      rcases List.mem_cons.mp hw with rfl | hw
      · assumption
      · exact le_trans (by assumption) (List.rel_of_pairwise_cons h hw)
    · refine List.Pairwise.cons (fun w hw => ?_) (pairwise_insAscBy key x h.of_cons)
      rcases (mem_insAscBy key x w zs).mp hw with rfl | hw
      · exact le_of_lt (lt_of_not_le (by assumption))
      · exact List.rel_of_pairwise_cons h hw

lemma pairwise_sortAscBy {α β : Type} [LinearOrder β] (key : α → β) :
    ∀ l : List α, (sortAscBy key l).Pairwise (fun a b => key a ≤ key b)
  | [] => by simp [sortAscBy]
  | z :: zs => pairwise_insAscBy key z (pairwise_sortAscBy key zs)

/-! ### Claim C3: shares-to-lots conversion -/

/-- C3 counterexample: the conversion is not floor division.  At -500
shares the code returns 0 lots while floor(-500 / 1000) = -1, so the
universally quantified floor description in the claim is false. -/
theorem shares_to_lots_not_floor :
    shares_to_lots (-500) = 0 ∧ Int.fdiv (-500) 1000 = -1 ∧
      shares_to_lots (-500) ≠ Int.fdiv (-500) 1000 := by
  refine ⟨by decide, by decide, by decide⟩

/-- C3 (amended): shares_to_lots truncates the quotient toward zero
(Python int()): every input of magnitude below 1000 shares — negative ones
included — gives 0 lots, the conversion agrees with floor division on
nonnegative inputs, and it is odd (symmetric about zero), which is exactly
truncation toward zero rather than floor. -/
theorem shares_to_lots_truncates (v : ℤ) :
    (v.natAbs < 1000 → shares_to_lots v = 0)
    ∧ (0 ≤ v → shares_to_lots v = Int.fdiv v 1000)
    ∧ shares_to_lots (-v) = -shares_to_lots v := by
  refine ⟨fun h => ?_, fun h => ?_, Int.neg_tdiv v 1000⟩
  · unfold shares_to_lots
    rcases le_or_lt 0 v with hv | hv
    · exact Int.tdiv_eq_zero_of_lt hv (by omega)
    · have : v = -(-v) := by ring
      rw [this, Int.neg_tdiv, Int.tdiv_eq_zero_of_lt (by omega) (by omega)]
      ring
  · exact (Int.fdiv_eq_tdiv h (by norm_num)).symm

/-- C3 witness: the amended theorem applied at the concrete inputs 500 and
700 shares. -/
theorem shares_to_lots_truncates_witness :
    shares_to_lots 500 = 0 ∧ shares_to_lots 700 = Int.fdiv 700 1000 :=
  ⟨(shares_to_lots_truncates 500).1 (by decide),
   (shares_to_lots_truncates 700).2.1 (by decide)⟩

/-! ### Claim C4: Daily Rank Extractor -/

/-- C4 counterexample: ties of equal net volume are broken by the order of
the input records, not by ascending security code, so the selected list is
not determined by the (volume, code) content of the snapshot: the same
multiset of records selects code 2330 in one order and code 1101 in the
other. -/
theorem rank_extractor_order_dependent :
    buy_top 1 [("2330", (5 : ℤ)), ("1101", 5)] = [("2330", 5)]
    ∧ buy_top 1 [("1101", (5 : ℤ)), ("2330", 5)] = [("1101", 5)]
    ∧ (([("2330", (5 : ℤ)), ("1101", 5)] : List SRec) : Multiset SRec)
      = (([("1101", (5 : ℤ)), ("2330", 5)] : List SRec) : Multiset SRec) := by
  refine ⟨by decide, by decide, by decide⟩

/-- C4 (amended): the extractor selects at most N records, the buy list is
sorted by net volume descending and contains only positive-volume records
of the snapshot, the sell list is sorted ascending and contains only
negative-volume records; ties of equal volume are resolved by input order
(pandas nlargest keep=first), so equal-volume selection depends on the
order of records in the input, not on the security code. -/
theorem rank_extractor_sorted_bounded (n₁ n₂ : ℕ) (df : List SRec) :
    (buy_top n₁ df).length ≤ n₁
    ∧ (buy_top n₁ df).Pairwise (fun a b => b.2 ≤ a.2)
    ∧ (∀ r ∈ buy_top n₁ df, 0 < r.2 ∧ r ∈ df)
    ∧ (sell_top n₂ df).length ≤ n₂
    ∧ (sell_top n₂ df).Pairwise (fun a b => a.2 ≤ b.2)
    ∧ (∀ r ∈ sell_top n₂ df, r.2 < 0 ∧ r ∈ df) := by
  refine ⟨?_, ?_, fun r hr => ?_, ?_, ?_, fun r hr => ?_⟩
  · exact List.length_take_le n₁ _
  · exact (pairwise_sortDescBy Prod.snd _).sublist (List.take_sublist _ _)
  · have hm := (mem_sortDescBy Prod.snd r _).mp ((List.take_sublist _ _).mem hr)
    have := List.mem_filter.mp hm
    exact ⟨by simpa using this.2, this.1⟩
  · exact List.length_take_le n₂ _
  · exact (pairwise_sortAscBy Prod.snd _).sublist (List.take_sublist _ _)
  · have hm := (mem_sortAscBy Prod.snd r _).mp ((List.take_sublist _ _).mem hr)
    have := List.mem_filter.mp hm
    exact ⟨by simpa using this.2, this.1⟩

/-- C4 witness: the amended theorem applied to a concrete snapshot. -/
theorem rank_extractor_sorted_bounded_witness :
    (0 : ℤ) < ("2330", (7 : ℤ)).2 ∧ ("2330", (7 : ℤ)) ∈
      ([("0050", (-2 : ℤ)), ("2330", 7)] : List SRec) :=
  (rank_extractor_sorted_bounded 3 2 [("0050", (-2 : ℤ)), ("2330", 7)]).2.2.1
    ("2330", 7) (by decide)

/-! ### Claims C1, C8, C10: Aggregate Reducer -/

/-- Code key-set of a produced leaderboard. -/
def leaderboard_codes (o : Option (List SummaryRow)) : Finset String :=
  ((o.getD []).map SummaryRow.code).toFinset

/-- C10: if either top-20 tracker is empty the reducer returns no buy
leaderboard, no sell leaderboard, an empty cross-listing set and no
cross-listing table, even when the other tracker has data. -/
theorem aggregate_empty_tracker_returns_nothing (bT sT : List TrackerEntry)
    (t : ℤ) (n : Option ℕ) (h : bT = [] ∨ sT = []) :
    aggregate_analysis bT sT t n = ⟨none, none, ∅, none⟩ := by
  simp only [aggregate_analysis, if_pos h]

/-- C10 witness: an empty buy tracker against a nonempty sell tracker. -/
theorem aggregate_empty_tracker_returns_nothing_witness :
    aggregate_analysis [] [⟨"1101", "Cement", 2, -500⟩] 10000 (some 5)
      = ⟨none, none, ∅, none⟩ :=
  aggregate_empty_tracker_returns_nothing _ _ _ _ (Or.inl rfl)

/-- C8 counterexample: with a threshold of 10000 lots and a top-5 request
configured simultaneously, the run is not rejected — it returns a normal
top-N leaderboard, and the result is identical to a run with a wildly
different threshold, so the conflict is silently resolved in favour of the
top-N mode. -/
theorem aggregate_conflict_not_rejected :
    (aggregate_analysis [⟨"2330", "TSMC", 1, 20000⟩]
        [⟨"9999", "S", 1, -15000⟩] 10000 (some 5)).buyStocks
      = some [⟨"2330", "TSMC", 20000, 1⟩]
    ∧ aggregate_analysis [⟨"2330", "TSMC", 1, 20000⟩]
        [⟨"9999", "S", 1, -15000⟩] 10000 (some 5)
      = aggregate_analysis [⟨"2330", "TSMC", 1, 20000⟩]
        [⟨"9999", "S", 1, -15000⟩] 777777 (some 5) := by
  refine ⟨by decide, by decide⟩

/-- C8 (amended): when both a summed-volume threshold and a fixed top-N are
supplied, the reducer silently uses the top-N mode and the threshold has no
influence whatsoever on the result (the documented precedence of the
show_top_n parameter); no configuration error is raised. -/
theorem aggregate_topn_overrides_threshold (bT sT : List TrackerEntry)
    (t₁ t₂ : ℤ) (n : ℕ) :
    aggregate_analysis bT sT t₁ (some n) = aggregate_analysis bT sT t₂ (some n) :=
  rfl

/-- C1 counterexample: a security appearing on the buy tracker one day
(+100) and the sell tracker another day (-500) is reported cross-listed,
yet its summed volume is negative, so it appears in neither the buy
leaderboard (which is empty) nor in the threshold-filtered sell
leaderboard: the cross-listing set is not the intersection of the two
leaderboards' code key-sets. -/
theorem cross_listing_not_leaderboard_intersection :
    (aggregate_analysis [⟨"1101", "X", 1, 100⟩] [⟨"1101", "X", 2, -500⟩]
        10000 none).bothSet = {"1101"}
    ∧ leaderboard_codes (aggregate_analysis [⟨"1101", "X", 1, 100⟩]
        [⟨"1101", "X", 2, -500⟩] 10000 none).buyStocks = ∅
    ∧ leaderboard_codes (aggregate_analysis [⟨"1101", "X", 1, 100⟩]
        [⟨"1101", "X", 2, -500⟩] 10000 none).sellStocks = ∅
    ∧ (aggregate_analysis [⟨"1101", "X", 1, 100⟩] [⟨"1101", "X", 2, -500⟩]
        10000 none).bothSet
      ≠ leaderboard_codes (aggregate_analysis [⟨"1101", "X", 1, 100⟩]
          [⟨"1101", "X", 2, -500⟩] 10000 none).buyStocks
        ∩ leaderboard_codes (aggregate_analysis [⟨"1101", "X", 1, 100⟩]
          [⟨"1101", "X", 2, -500⟩] 10000 none).sellStocks := by
  refine ⟨by decide, by decide, by decide, by decide⟩

/-- C1 (amended): a code is reported cross-listed iff it appears at least
once in the buy top-20 tracker and at least once in the sell top-20 tracker
— the intersection of the two trackers' code key-sets, which can strictly
contain the intersection of the final leaderboards' key-sets. -/
theorem cross_listing_eq_tracker_intersection (bT sT : List TrackerEntry)
    (t : ℤ) (n : Option ℕ) (c : String) :
    c ∈ (aggregate_analysis bT sT t n).bothSet
      ↔ (∃ e ∈ bT, TrackerEntry.code e = c) ∧ (∃ e ∈ sT, TrackerEntry.code e = c) := by
  by_cases h : bT = [] ∨ sT = []
  · simp only [aggregate_analysis, if_pos h]
    rcases h with rfl | rfl <;> simp
  · simp only [aggregate_analysis, if_neg h]
    simp [List.mem_map]

/-! ### Claim C7: History Accumulator ingest -/

lemma setA_setA {α β : Type} [DecidableEq α] (k : α) (v₁ v₂ : β) :
    ∀ l : List (α × β), setA (setA l k v₁) k v₂ = setA l k v₂
  | [] => by simp [setA]
  | (a, b) :: rest => by
    by_cases h : a = k
    · simp [setA, h]
    · simp [setA, h, setA_setA k v₁ v₂ rest]

/-- Length of the per-security history series of one code. -/
def histLen (h : List (String × List (ℕ × ℤ))) (c : String) : ℕ :=
  ((lookupA h c).getD []).length

/-- Number of records of one code inside a snapshot. -/
def countCode (rs : List (String × ℤ)) (c : String) : ℕ :=
  (rs.filter fun r => r.1 = c).length

lemma histLen_appendHist (c₀ c : String) (d : ℕ) (v : ℤ) :
    ∀ h : List (String × List (ℕ × ℤ)),
      histLen (appendHist h c₀ d v) c = histLen h c + (if c₀ = c then 1 else 0)
  | [] => by
    simp only [appendHist, histLen, lookupA]
    split_ifs <;> simp
  | (k, l) :: rest => by
    by_cases hk : k = c₀
    · subst hk
      by_cases hc : k = c
      · subst hc
        simp [appendHist, histLen, lookupA]
      · simp [appendHist, histLen, lookupA, hc]
    · by_cases hc : k = c
      · subst hc
        have hne : ¬ c₀ = k := fun h => hk h.symm
        simp [appendHist, histLen, lookupA, if_neg hk, hne]
      · simp only [appendHist, histLen, lookupA, if_neg hk, if_neg hc]
        exact histLen_appendHist c₀ c d v rest

lemma histLen_foldl (d : ℕ) (c : String) :
    ∀ (rs : List (String × ℤ)) (h : List (String × List (ℕ × ℤ))),
      histLen (rs.foldl (fun h r => appendHist h r.1 d r.2) h) c
        = histLen h c + countCode rs c
  | [], h => by simp [countCode]
  | r :: rs, h => by
    simp only [List.foldl_cons]
    rw [histLen_foldl d c rs (appendHist h r.1 d r.2), histLen_appendHist]
    by_cases hr : r.1 = c
    · simp [countCode, List.filter_cons, hr]
      omega
    · simp [countCode, List.filter_cons, hr]

/-- C7 counterexample: ingesting the same one-record snapshot twice is not
idempotent — the second ingest appends a duplicate (date, value) pair to
the security's history series instead of leaving it unchanged. -/
theorem ingest_not_idempotent :
    ingest_snapshot (ingest_snapshot ⟨[], []⟩ 1 [("1101", 5)]) 1 [("1101", 5)]
      ≠ ingest_snapshot ⟨[], []⟩ 1 [("1101", 5)]
    ∧ (ingest_snapshot (ingest_snapshot ⟨[], []⟩ 1 [("1101", 5)]) 1
        [("1101", 5)]).hist = [("1101", [(1, 5), (1, 5)])]
    ∧ (ingest_snapshot ⟨[], []⟩ 1 [("1101", 5)]).hist
      = [("1101", [(1, 5)])] := by
  refine ⟨by decide, by decide, by decide⟩

/-- C7 (amended): re-ingesting the same snapshot leaves the per-day
all-codes map unchanged (dict assignment, last write wins) but appends one
more (date, value) entry per record occurrence to that code's history
series: after a double ingest every code's series has grown by twice its
record count, so ingest is idempotent on the per-day map and not on the
history series. -/
theorem ingest_reingest_effect (st : AccState) (d : ℕ)
    (rs : List (String × ℤ)) (c : String) :
    (ingest_snapshot (ingest_snapshot st d rs) d rs).dailyAll
      = (ingest_snapshot st d rs).dailyAll
    ∧ histLen (ingest_snapshot st d rs).hist c = histLen st.hist c + countCode rs c
    ∧ histLen (ingest_snapshot (ingest_snapshot st d rs) d rs).hist c
      = histLen st.hist c + 2 * countCode rs c := by
  refine ⟨?_, histLen_foldl d c rs st.hist, ?_⟩
  · simp only [ingest_snapshot, setA_setA]
  · simp only [ingest_snapshot]
    rw [histLen_foldl d c rs, histLen_foldl d c rs]
    omega

/-! ### Claims C5, C6: Statistics Engine -/

/-- C5: the engine sorts the series by date descending, takes the most
recent entry as the latest value, and bases the mean and the (population)
variance on the next up-to-60 entries excluding the latest; it yields a
result iff at least 30 such trailing entries exist (min 60 (len-1) ≥ 30),
and otherwise returns nothing rather than failing. -/
theorem stats_window_and_omission (dv : List (ℕ × ℤ)) (σ : ℚ) :
    ((∃ s, calculate_stock_statistics dv σ = some s) ↔ 30 ≤ min 60 (dv.length - 1))
    ∧ ∀ s, calculate_stock_statistics dv σ = some s →
        s.latest = ((sortDescBy Prod.fst dv).headD (0, 0)).2
        ∧ s.mean = listMeanQ ((((sortDescBy Prod.fst dv).drop 1).take 60).map Prod.snd)
        ∧ s.var = popVarQ ((((sortDescBy Prod.fst dv).drop 1).take 60).map Prod.snd) := by
  have hlen : ((((sortDescBy Prod.fst dv).drop 1).take 60).map Prod.snd).length
      = min 60 (dv.length - 1) := by
    simp [List.length_take, List.length_drop, length_sortDescBy]
  by_cases h1 : 30 ≤ dv.length
  · by_cases h2 : 30 ≤ ((((sortDescBy Prod.fst dv).drop 1).take 60).map Prod.snd).length
    · simp only [calculate_stock_statistics, if_pos h1, if_pos h2]
      refine ⟨⟨fun _ => by rw [hlen] at h2; exact h2, fun _ => ⟨_, rfl⟩⟩, ?_⟩
      intro s hs
      injection hs with hs
      subst hs
      exact ⟨rfl, rfl, rfl⟩
    · simp only [calculate_stock_statistics, if_pos h1, if_neg h2]
      refine ⟨⟨fun h => ?_, fun hmin => ?_⟩, fun s hs => by cases hs⟩
      · obtain ⟨s, hs⟩ := h
        cases hs
      · rw [hlen] at h2
        exact absurd hmin h2
  · simp only [calculate_stock_statistics, if_neg h1]
    refine ⟨⟨fun h => ?_, fun hmin => ?_⟩, fun s hs => by cases hs⟩
    · obtain ⟨s, hs⟩ := h
      cases hs
    · omega

/-- C6: a zero trailing-window standard deviation (variance 0, e.g. a
constant trailing sub-series) gives z-score 0 (zSq = 0) and no anomaly flag
for any positive sigma threshold; the function is total, so no
division-by-zero error can occur. -/
theorem stats_zero_std_no_anomaly (dv : List (ℕ × ℤ)) (σ : ℚ) (s : StockStats)
    (h : calculate_stock_statistics dv σ = some s) (hv : s.var = 0)
    (hσ : 0 < σ) : s.zSq = 0 ∧ s.anomaly = false := by
  simp only [calculate_stock_statistics] at h
  split_ifs at h with h1 h2 h3
  · injection h with h
    subst h
    dsimp only at hv
    rw [hv] at h3
    exact absurd h3 (lt_irrefl 0)
  · injection h with h
    subst h
    refine ⟨rfl, ?_⟩
    dsimp only
    rw [decide_eq_false (not_le.mpr hσ), decide_eq_false h3]
    simp

lemma listMeanQ_replicate (n : ℕ) (v : ℤ) (hn : n ≠ 0) :
    listMeanQ (List.replicate n v) = (v : ℚ) := by
  have hq : (n : ℚ) ≠ 0 := Nat.cast_ne_zero.mpr hn
  simp only [listMeanQ, List.map_replicate, List.sum_replicate,
    List.length_replicate, nsmul_eq_mul]
  field_simp

lemma popVarQ_replicate (n : ℕ) (v : ℤ) (hn : n ≠ 0) :
    popVarQ (List.replicate n v) = 0 := by
  simp [popVarQ, listMeanQ_replicate n v hn, List.map_replicate, sub_self]

/-- Evaluation of the statistics on a constant 31-day series: the trailing
30-entry window is constant, so the variance is 0, the z-score is 0 and no
anomaly is flagged. -/
lemma calc_stats_const31 :
    calculate_stock_statistics ((List.range 31).map fun i => (i, (7 : ℤ))) 3
      = some ⟨7, 0, 7, 0, false⟩ := by
  have hsort : (((sortDescBy Prod.fst ((List.range 31).map fun i =>
      (i, (7 : ℤ)))).drop 1).take 60).map Prod.snd = List.replicate 30 (7 : ℤ) := by
    decide
  have hlatest : ((sortDescBy Prod.fst ((List.range 31).map fun i =>
      (i, (7 : ℤ)))).headD (0, 0)).2 = 7 := by decide
  simp only [calculate_stock_statistics]
  rw [hsort, hlatest, listMeanQ_replicate 30 7 (by norm_num),
    popVarQ_replicate 30 7 (by norm_num)]
  rw [decide_eq_false (by norm_num : ¬ (3 : ℚ) ≤ 0),
    decide_eq_false (lt_irrefl (0 : ℚ))]
  norm_num

/-- C5 witness: the main statistics theorem applied to a concrete 31-entry
series, whose trailing window has 30 ≥ 30 entries. -/
theorem stats_window_and_omission_witness :
    ∃ s, calculate_stock_statistics ((List.range 31).map fun i =>
      (i, (7 : ℤ))) 3 = some s :=
  (stats_window_and_omission ((List.range 31).map fun i => (i, (7 : ℤ))) 3).1.mpr
    (by decide)

/-- C6 witness: the zero-standard-deviation theorem applied to the constant
31-day series. -/
theorem stats_zero_std_no_anomaly_witness :
    calculate_stock_statistics ((List.range 31).map fun i => (i, (7 : ℤ))) 3
      = some ⟨7, 0, 7, 0, false⟩
    ∧ (7, 0, 7, 0, false).2.2.2.1 = (0 : ℚ)
    ∧ StockStats.zSq ⟨7, 0, 7, 0, false⟩ = 0
    ∧ StockStats.anomaly ⟨7, 0, 7, 0, false⟩ = false :=
  ⟨calc_stats_const31, rfl,
    (stats_zero_std_no_anomaly ((List.range 31).map fun i => (i, (7 : ℤ))) 3
      ⟨7, 0, 7, 0, false⟩ calc_stats_const31 rfl (by norm_num)).1,
    (stats_zero_std_no_anomaly ((List.range 31).map fun i => (i, (7 : ℤ))) 3
      ⟨7, 0, 7, 0, false⟩ calc_stats_const31 rfl (by norm_num)).2⟩

/-! ### Claim C2: Observable Classifier -/

/-- Example classifier input: latest records of the newest day. -/
def exLatestRecords : List SRec := [("1234", 50), ("5678", -50)]

/-- Example per-day top-20 buy sets: code 1234 enters on day 10 only. -/
def exDailyBuy : List (ℕ × Finset String) :=
  [(10, {"1234"}), (9, ∅), (8, ∅), (7, ∅), (6, ∅)]

/-- Example per-day top-20 sell sets: code 5678 enters on day 10 only. -/
def exDailySell : List (ℕ × Finset String) :=
  [(10, {"5678"}), (9, ∅), (8, ∅), (7, ∅), (6, ∅)]

/-- Example all-codes direction maps: 1234 net-positive and 5678
net-negative on each of the three prior days 9, 8, 7. -/
def exDailyAll : List (ℕ × List (String × ℤ)) :=
  [(9, [("1234", 5), ("5678", -5)]), (8, [("1234", 5), ("5678", -5)]),
   (7, [("1234", 5), ("5678", -5)])]

/-- C2 counterexample: code 1234 is in the latest top-20 buy set, absent
from all four prior days' top-20 buy sets, and it lands in the new-buy set
AND in the observable-buy map (it was net-positive on 3 of the prior 4
days): the classifier does not exclude new entrants from the observable
map, contradicting the claim. -/
theorem classifier_new_in_observable_counterexample :
    "1234" ∈ (analyze_new_entries_and_observables exLatestRecords exDailyBuy
        exDailySell exDailyAll [] 100 50).newBuy
    ∧ "1234" ∈ (analyze_new_entries_and_observables exLatestRecords exDailyBuy
        exDailySell exDailyAll [] 100 50).obsBuy := by
  refine ⟨by decide, by decide⟩

/-- C2 (amended): a code in the latest day's top-20 buy set and absent from
the union of the 4 preceding days' top-20 buy sets is placed in the new-buy
set, but membership in the observable-buy map is decided solely by the
anomaly / 3-of-4-positive-days criteria over the latest top-N buy list —
new-entrant status does not exclude a code from the observable map
(symmetrically on the sell side). -/
theorem classifier_new_entrant_observable
    (latestRecords : List SRec) (dailyBuy dailySell : List (ℕ × Finset String))
    (dailyAll : List (ℕ × List (String × ℤ))) (stats : List (String × StockStats))
    (nb ns : ℕ) (c c₂ : String)
    (hlen : 2 ≤ (sorted_dates dailyBuy).length)
    (hbuy : c ∈ (lookupA dailyBuy ((sorted_dates dailyBuy).headD 0)).getD ∅)
    (hnb : c ∉ union_top20 dailyBuy (prev_dates4 dailyBuy))
    (hsell : c₂ ∈ (lookupA dailySell ((sorted_dates dailyBuy).headD 0)).getD ∅)
    (hns : c₂ ∉ union_top20 dailySell (prev_dates4 dailyBuy)) :
    c ∈ (analyze_new_entries_and_observables latestRecords dailyBuy dailySell
        dailyAll stats nb ns).newBuy
    ∧ (c ∈ (analyze_new_entries_and_observables latestRecords dailyBuy
          dailySell dailyAll stats nb ns).obsBuy
        ↔ c ∈ (analyze_new_entries_and_observables latestRecords dailyBuy
            dailySell dailyAll stats nb ns).latestBuyN
          ∧ (anom_flag stats c = true ∨ 3 ≤ pos_days dailyAll (prev_dates4 dailyBuy) c))
    ∧ c₂ ∈ (analyze_new_entries_and_observables latestRecords dailyBuy
        dailySell dailyAll stats nb ns).newSell
    ∧ (c₂ ∈ (analyze_new_entries_and_observables latestRecords dailyBuy
          dailySell dailyAll stats nb ns).obsSell
        ↔ c₂ ∈ (analyze_new_entries_and_observables latestRecords dailyBuy
            dailySell dailyAll stats nb ns).latestSellN
          ∧ (anom_flag stats c₂ = true ∨ 3 ≤ neg_days dailyAll (prev_dates4 dailyBuy) c₂)) := by
  simp only [analyze_new_entries_and_observables, if_pos hlen]
  exact ⟨Finset.mem_sdiff.mpr ⟨hbuy, hnb⟩, Finset.mem_filter,
    Finset.mem_sdiff.mpr ⟨hsell, hns⟩, Finset.mem_filter⟩

/-- C2 witness: the amended theorem applied to the example input: 1234 is a
new buy entrant, 5678 a new sell entrant. -/
theorem classifier_new_entrant_observable_witness :
    "1234" ∈ (analyze_new_entries_and_observables exLatestRecords exDailyBuy
        exDailySell exDailyAll [] 100 50).newBuy
    ∧ "5678" ∈ (analyze_new_entries_and_observables exLatestRecords exDailyBuy
        exDailySell exDailyAll [] 100 50).newSell :=
  ⟨(classifier_new_entrant_observable exLatestRecords exDailyBuy exDailySell
      exDailyAll [] 100 50 "1234" "5678" (by decide) (by decide) (by decide)
      (by decide) (by decide)).1,
   (classifier_new_entrant_observable exLatestRecords exDailyBuy exDailySell
      exDailyAll [] 100 50 "1234" "5678" (by decide) (by decide) (by decide)
      (by decide) (by decide)).2.2.1⟩

/-! ### Claim C9: Code Normalizer -/

lemma dropWhile_eq_self_of_none {p : Char → Bool} :
    ∀ {s : List Char}, (∀ c ∈ s, p c = false) → s.dropWhile p = s
  | [], _ => rfl
  | c :: cs, h => by
    simp [List.dropWhile_cons, h c (List.mem_cons_self c cs)]

lemma pyStrip_eq_self {s : List Char}
    (h : ∀ c ∈ s, pyIsSpace c = false) : pyStrip s = s := by
  have h2 : lstrip s = s :=
    dropWhile_eq_self_of_none h
  rw [pyStrip, h2, rstrip,
    dropWhile_eq_self_of_none (fun c hc => h c (List.mem_reverse.mp hc)),
    List.reverse_reverse]

lemma mem_pyStrip {x : Char} {s : List Char} (hx : x ∈ pyStrip s) : x ∈ s := by
  rw [pyStrip, rstrip, List.mem_reverse] at hx
  have h1 : x ∈ (lstrip s).reverse := (List.dropWhile_sublist pyIsSpace).mem hx
  rw [List.mem_reverse] at h1
  exact (List.dropWhile_sublist pyIsSpace).mem h1

lemma mem_removeAll {q x : Char} :
    ∀ {s : List Char}, x ∈ removeAll q s ↔ x ∈ s ∧ x ≠ q
  | [] => by simp [removeAll]
  | c :: cs => by
    by_cases hc : c = q
    · subst hc
      have h1 : removeAll c (c :: cs) = removeAll c cs := by
        simp [removeAll]
      rw [h1, mem_removeAll]
      simp only [List.mem_cons]
      constructor
      · rintro ⟨hx, hne⟩
        exact ⟨Or.inr hx, hne⟩
      · rintro ⟨rfl | hx, hne⟩
        · exact absurd rfl hne
        · exact ⟨hx, hne⟩
    · have h1 : removeAll q (c :: cs) = c :: removeAll q cs := by
        simp [removeAll, hc]
      rw [h1]
      simp only [List.mem_cons]
      rw [mem_removeAll]
      constructor
      · rintro (rfl | ⟨hx, hne⟩)
        · exact ⟨Or.inl rfl, fun h => hc h⟩
        · exact ⟨Or.inr hx, hne⟩
      · rintro ⟨rfl | hx, hne⟩
        · exact Or.inl rfl
        · exact Or.inr ⟨hx, hne⟩

lemma removeAll_eq_self {q : Char} :
    ∀ {s : List Char}, q ∉ s → removeAll q s = s
  | [], _ => rfl
  | c :: cs, h => by
    have hc : ¬ c = q := fun hc => h (hc ▸ List.mem_cons_self c cs)
    simp only [removeAll, if_neg hc]
    rw [removeAll_eq_self (fun hm => h (List.mem_cons_of_mem c hm))]

lemma removePairs_eq_self {a b : Char} :
    ∀ {s : List Char}, b ∉ s → removePairs a b s = s
  | [], _ => rfl
  | [c], _ => rfl
  | c :: d :: rest, h => by
    have hd : ¬ (c = a ∧ d = b) := fun hcd =>
      h (hcd.2 ▸ List.mem_cons_of_mem c (List.mem_cons_self d rest))
    simp only [removePairs, if_neg hd]
    rw [removePairs_eq_self (fun hm => h (List.mem_cons_of_mem c hm))]

lemma mem_removePairs {a b x : Char} :
    ∀ {s : List Char}, x ∈ removePairs a b s → x ∈ s
  | [], h => h
  | [c], h => h
  | c :: d :: rest, h => by
    by_cases hcd : c = a ∧ d = b
    · simp only [removePairs, if_pos hcd] at h
      exact List.mem_cons_of_mem c (List.mem_cons_of_mem d (mem_removePairs h))
    · simp only [removePairs, if_neg hcd, List.mem_cons] at h
      rcases h with rfl | h
      · exact List.mem_cons_self x (d :: rest)
      · exact List.mem_cons_of_mem c (mem_removePairs h)

lemma pyIsDigit_not_space {c : Char} (h : pyIsDigit c = true) :
    pyIsSpace c = false := by
  simp only [pyIsDigit, Bool.and_eq_true, decide_eq_true_eq] at h
  simp only [pyIsSpace, Bool.or_eq_false_iff, decide_eq_false_iff_not]
  omega

lemma not_mem_of_all_digit {q : Char} (hq : pyIsDigit q = false)
    {s : List Char} (h : s.all pyIsDigit = true) : q ∉ s := fun hm => by
  rw [List.all_eq_true] at h
  have := h q hm
  rw [hq] at this
  cases this

lemma cleaned_of_digit {s : List Char} (hd : s.all pyIsDigit = true) :
    cleaned s = s := by
  have hws : ∀ c ∈ s, pyIsSpace c = false := fun c hc =>
    pyIsDigit_not_space (List.all_eq_true.mp hd c hc)
  have hq : quoteChar ∉ s := not_mem_of_all_digit (by decide) hd
  have ha : apostChar ∉ s := not_mem_of_all_digit (by decide) hd
  rw [cleaned, pyStrip_eq_self hws, removePairs_eq_self hq,
    removeAll_eq_self hq, removeAll_eq_self ha]

lemma mem_cleaned {x : Char} {s : List Char} (h : x ∈ cleaned s) : x ∈ s := by
  rw [cleaned] at h
  exact mem_pyStrip (mem_removePairs (mem_removeAll.mp (mem_removeAll.mp h).1).1)

lemma cleaned_idem {s : List Char} (hws : ∀ c ∈ s, pyIsSpace c = false) :
    cleaned (cleaned s) = cleaned s := by
  have hws2 : ∀ c ∈ cleaned s, pyIsSpace c = false := fun c hc =>
    hws c (mem_cleaned hc)
  have ha : apostChar ∉ cleaned s := fun hm => (mem_removeAll.mp hm).2 rfl
  have hq : quoteChar ∉ cleaned s := fun hm =>
    (mem_removeAll.mp (mem_removeAll.mp hm).1).2 rfl
  rw [cleaned, pyStrip_eq_self hws2, removePairs_eq_self hq,
    removeAll_eq_self hq, removeAll_eq_self ha]

lemma all_digit_zfill4 {s : List Char} (hd : s.all pyIsDigit = true) :
    (zfill4 s).all pyIsDigit = true := by
  rw [List.all_eq_true] at hd ⊢
  intro c hc
  rcases List.mem_append.mp hc with hc | hc
  · rw [List.eq_of_mem_replicate hc]
    decide
  · exact hd c hc

lemma length_zfill4 {s : List Char} (hl : s.length < 4) :
    (zfill4 s).length = 4 := by
  simp only [zfill4, List.length_append, List.length_replicate]
  omega

/-- C9 counterexample: the normalizer is not idempotent on every input —
on the three-character input 1,space,quote the quote removal exposes a
trailing space, so the first pass returns 1,space, while a second pass
strips the space and zero-pads to 0001. -/
theorem normalize_not_idempotent :
    normalize_stock_code (normalize_stock_code ['1', ' ', quoteChar])
      ≠ normalize_stock_code ['1', ' ', quoteChar]
    ∧ normalize_stock_code ['1', ' ', quoteChar] = ['1', ' ']
    ∧ normalize_stock_code ['1', ' '] = ['0', '0', '0', '1'] := by
  refine ⟨by decide, by decide, by decide⟩

/-- C9 (amended): every non-empty all-digit string shorter than 4
characters normalizes to exactly 4 characters, namely itself left-padded
with zeros; and the normalizer is idempotent on every input without
whitespace (in particular on all code-like inputs) — full idempotence
fails only when removing quote characters exposes stripped whitespace, as
in the counterexample. -/
theorem normalize_pad_and_partial_idem (s : List Char) :
    (s ≠ [] → s.all pyIsDigit = true → s.length < 4 →
      normalize_stock_code s = zfill4 s ∧ (normalize_stock_code s).length = 4)
    ∧ ((∀ c ∈ s, pyIsSpace c = false) →
      normalize_stock_code (normalize_stock_code s) = normalize_stock_code s) := by
  constructor
  · intro h0 hd hl
    have hc : cleaned s = s := cleaned_of_digit hd
    have : normalize_stock_code s = zfill4 s := by
      rw [normalize_stock_code, if_neg h0, hc, if_pos ⟨h0, hd, hl⟩]
    exact ⟨this, this ▸ length_zfill4 hl⟩
  · intro hws
    by_cases h0 : s = []
    · subst h0
      rfl
    · by_cases hcond : (cleaned s) ≠ [] ∧ (cleaned s).all pyIsDigit = true
          ∧ (cleaned s).length < 4
      · have hres : normalize_stock_code s = zfill4 (cleaned s) := by
          rw [normalize_stock_code, if_neg h0, if_pos hcond]
        have hz0 : ¬ zfill4 (cleaned s) = [] := by
          have h4 := length_zfill4 hcond.2.2
          intro h
          rw [h] at h4
          cases h4
        have hzd : (zfill4 (cleaned s)).all pyIsDigit = true :=
          all_digit_zfill4 hcond.2.1
        have hnc : ¬ (zfill4 (cleaned s) ≠ []
            ∧ (zfill4 (cleaned s)).all pyIsDigit = true
            ∧ (zfill4 (cleaned s)).length < 4) := by
          intro hcond2
          have h4 := hcond2.2.2
          rw [length_zfill4 hcond.2.2] at h4
          omega
        rw [hres, normalize_stock_code, if_neg hz0, cleaned_of_digit hzd,
          if_neg hnc]
      · have hres : normalize_stock_code s = cleaned s := by
          rw [normalize_stock_code, if_neg h0, if_neg hcond]
        rw [hres]
        by_cases ht0 : cleaned s = []
        · rw [ht0]
          rfl
        · rw [normalize_stock_code, if_neg ht0, cleaned_idem hws, if_neg hcond]

/-- C9 witness: the amended theorem applied to the two-digit input 56 and
to its own (whitespace-free) idempotence clause. -/
theorem normalize_pad_and_partial_idem_witness :
    normalize_stock_code ['5', '6'] = zfill4 ['5', '6']
    ∧ (normalize_stock_code ['5', '6']).length = 4
    ∧ normalize_stock_code (normalize_stock_code ['5', '6'])
      = normalize_stock_code ['5', '6'] :=
  ⟨((normalize_pad_and_partial_idem ['5', '6']).1 (by decide) (by decide)
      (by decide)).1,
   ((normalize_pad_and_partial_idem ['5', '6']).1 (by decide) (by decide)
      (by decide)).2,
   (normalize_pad_and_partial_idem ['5', '6']).2 (by decide)⟩

end GetDailyStock
